import Mathlib

/-!
Verification of the bitclient RPC core against its specification.

Strings from the Go source are modelled as `List Char` (byte-level scanning in
the source coincides with char-level scanning on the ASCII data these
functions handle).  Go errors are modelled by their message text; fallible
functions return `Option`/`Except`.  Unicode-aware Go helpers
(`strings.ToLower`, `unicode.IsSpace`) are embedded at ASCII granularity,
which is exact on every input the claims range over.
-/

namespace Bitclient

/-- Shorthand: the character list of a string literal. -/
def strL (s : String) : List Char := s.toList

/-! ## Character and list helpers (embedding the Go `strings` functions used) -/

/-- ASCII lowercasing of one character, as `strings.ToLower` acts on ASCII. -/
def lowerChar (c : Char) : Char :=
  if 'A' ≤ c ∧ c ≤ 'Z' then Char.ofNat (c.toNat + 32) else c

/-- `strings.ToLower` (ASCII fragment). -/
def goToLower (s : List Char) : List Char := s.map lowerChar

/-- ASCII whitespace, as recognized by `unicode.IsSpace` on ASCII input. -/
def isGoSpace (c : Char) : Bool :=
  c = ' ' ∨ c = '\t' ∨ c = '\n' ∨ c = Char.ofNat 11 ∨ c = Char.ofNat 12 ∨ c = '\r'

/-- `strings.TrimSpace` (ASCII fragment). -/
def trimSpace (s : List Char) : List Char :=
  ((s.dropWhile isGoSpace).reverse.dropWhile isGoSpace).reverse

/-- `strings.HasPrefix s p`. -/
def goHasPrefix (s p : List Char) : Bool := p.isPrefixOf s

/-- `strings.HasSuffix s p`. -/
def goHasSuffix (s p : List Char) : Bool := p.isSuffixOf s

/-- `strings.TrimPrefix s p`: drop `p` when it is a prefix, else unchanged. -/
def goTrimPrefix (s p : List Char) : List Char :=
  if goHasPrefix s p then s.drop p.length else s

/-- `strings.TrimSuffix s p`: drop `p` when it is a suffix, else unchanged. -/
def goTrimSuffix (s p : List Char) : List Char :=
  if goHasSuffix s p then s.take (s.length - p.length) else s

/-- `strings.Contains s pat` (substring containment): `pat` occurs at the
current position or somewhere in the tail. -/
def goContains : List Char → List Char → Bool
  | [], pat => pat.isPrefixOf []
  | c :: t, pat => pat.isPrefixOf (c :: t) || goContains t pat

/-- `strings.Contains s (string c)` for a single character. -/
def goContainsChar (s : List Char) (c : Char) : Bool := s.contains c

/-- The two pieces of `strings.SplitN s (string sep) 2` when `sep` occurs in
`s`: the part before the first `sep` and everything after it.  (When `sep`
does not occur, Go returns the one-element slice `[s]`; callers below only
reach this function after checking that `sep` occurs.) -/
def splitFirst : List Char → Char → List Char × List Char
  | [], _ => ([], [])
  | c :: t, sep =>
    if c = sep then ([], t)
    else
      let p := splitFirst t sep
      (c :: p.1, p.2)

/-! ## errs.Of (src/errs/errors.go) -/

/-- `errs.Of(msg)` called with no format arguments: if the message contains a
percent sign it is replaced by the constant text `malformed error`, otherwise
the error text is the message itself.  (The variadic-argument path of `Of`
goes through `fmt.Errorf` and is modelled at its call sites.) -/
def errsOfNoArgs (msg : List Char) : List Char :=
  if goContainsChar msg '%' then strL "malformed error" else msg

/-! ## Verbosity levels (src/blocks/blocks.go) -/

/-- `type BlockInfoVerbosity int` — the Go type is an integer alias. -/
abbrev BlockInfoVerbosity := Int

def VerbositySerializedHexData : BlockInfoVerbosity := 0
def VerbosityBasicBlockInfo : BlockInfoVerbosity := 1
def VerbosityDetailedBlockInfo : BlockInfoVerbosity := 2
def VerbosityFullBlockInfoWithPrevout : BlockInfoVerbosity := 3

/-- Decimal rendering of a natural number (fuel-based; fuel `n` suffices). -/
def natDecGo : Nat → Nat → List Char → List Char
  | 0, n, acc => Char.ofNat (48 + n % 10) :: acc
  | fuel + 1, n, acc =>
    if n < 10 then Char.ofNat (48 + n) :: acc
    else natDecGo fuel (n / 10) (Char.ofNat (48 + n % 10) :: acc)

def natDec (n : Nat) : List Char := natDecGo n n []

/-- Decimal rendering of an integer, as Go `fmt` verb `%d`. -/
def intDec (i : Int) : List Char :=
  if i < 0 then '-' :: natDec i.natAbs else natDec i.toNat

/-- The error message built by `VerbosityFrom` for an out-of-range level. -/
def verbosityErrMsg (i : Int) : List Char :=
  strL "invalid verbosity level (" ++ intDec i ++ strL "), valid range is 0-3"

/-- `VerbosityFrom` (src/blocks/blocks.go lines 52-57). -/
def VerbosityFrom (i : Int) : Except (List Char) BlockInfoVerbosity :=
  if i < VerbositySerializedHexData ∨ i > VerbosityFullBlockInfoWithPrevout then
    Except.error (verbosityErrMsg i)
  else
    Except.ok i

/-! ## Block hash validation (src/blocks/blocks.go) -/

/-- One character of the class `[0-9a-fA-F]`. -/
def isHexDigit (c : Char) : Bool :=
  ('0' ≤ c ∧ c ≤ '9') ∨ ('a' ≤ c ∧ c ≤ 'f') ∨ ('A' ≤ c ∧ c ≤ 'F')

/-- Semantics of the anchored regular expression `^[0-9a-fA-F]{64}$`: the
whole input is exactly 64 hexadecimal characters. -/
def hashRegexMatches (s : List Char) : Bool :=
  s.length = 64 ∧ s.all isHexDigit

/-- `IsBlockHashInvalid` (src/blocks/blocks.go lines 76-78). -/
def IsBlockHashInvalid (s : List Char) : Bool :=
  s.length ≠ 64 ∨ ¬ hashRegexMatches s

/-! ## strconv.Atoi -/

def isDigitChar (c : Char) : Bool := '0' ≤ c ∧ c ≤ '9'

def digitsVal (ds : List Char) : Int :=
  ds.foldl (fun acc c => acc * 10 + ((c.toNat : Int) - 48)) 0

def maxInt64 : Int := 9223372036854775807
def minInt64 : Int := -9223372036854775808

/-- `strconv.ParseInt` clamps an out-of-range value to the nearest bound
(returning it together with `ErrRange`). -/
def clampInt64 (v : Int) : Int :=
  if v > maxInt64 then maxInt64 else if v < minInt64 then minInt64 else v

/-- Sign and digit part of a candidate decimal integer. -/
def atoiSignSplit : List Char → Bool × List Char
  | '-' :: t => (true, t)
  | '+' :: t => (false, t)
  | t => (false, t)

/-- Whether the string is an optionally signed, non-empty digit string. -/
def atoiSyntaxOk (s : List Char) : Bool :=
  (atoiSignSplit s).2 ≠ [] ∧ (atoiSignSplit s).2.all isDigitChar

/-- The signed value of the digit string (before any range handling). -/
def atoiVal (s : List Char) : Int :=
  if (atoiSignSplit s).1 then -(digitsVal (atoiSignSplit s).2)
  else digitsVal (atoiSignSplit s).2

/-- `strconv.Atoi` succeeding with an in-range value: `some n` exactly when
the string is an optionally signed, non-empty digit string whose value fits
in a signed 64-bit integer. -/
def atoiOk (s : List Char) : Option Int :=
  if atoiSyntaxOk s then
    if atoiVal s > maxInt64 ∨ atoiVal s < minInt64 then none else some (atoiVal s)
  else none

/-- The integer value of `height, _ := strconv.Atoi(block)` with the error
discarded: the parsed value (clamped at the 64-bit bounds on range error),
and `0` when the string is not a decimal integer at all. -/
def goAtoi (s : List Char) : Int :=
  if atoiSyntaxOk s then clampInt64 (atoiVal s) else 0

/-! ## Block identifier resolution (src/blocks/blocks.go, GetBlock /
GetBlockFilter / GetBlockHeader / GetBlockStats prologue)

The shared prologue of the four block operations:

    if IsBlockHashInvalid(block) {
        height, _ := strconv.Atoi(block)
        hash, err := GetBlockHash(height)
        if err != nil {
            return nil, errs.Of("block must be a valid block hash or a numeric height")
        } else {
            block = hash
        }
    }

`GetBlockHash` goes through the Transport; it is abstracted as an oracle
`lookup : Int → Option (List Char)` (`none` = the call returned an error).
The second component of the result records the heights passed to
`GetBlockHash`, in order, so that "no lookup" / "exactly one lookup" are
statable. -/

def resolutionFailureMsg : List Char :=
  errsOfNoArgs (strL "block must be a valid block hash or a numeric height")

def resolveBlockIdentifier (lookup : Int → Option (List Char)) (block : List Char) :
    Except (List Char) (List Char) × List Int :=
  if IsBlockHashInvalid block then
    match lookup (goAtoi block) with
    | none => (Except.error resolutionFailureMsg, [goAtoi block])
    | some hash => (Except.ok hash, [goAtoi block])
  else
    (Except.ok block, [])

/-! ## The error normalizer (src/unnamed/part_020 `handle`,
src/blocks/result.go `Result`)

State of the character-by-character scanner in `stringToMap`. -/

structure ScanState where
  currentKey : List Char
  currentValue : List Char
  inValue : Bool
  /-- The map under construction.  Writes are consed at the head, so a
  lookup that takes the first matching key sees the latest write, as a Go
  map does. -/
  result : List (List Char × List Char)
  deriving Repr, DecidableEq

/-- The loop body of `stringToMap` (part_020 lines 98-128): one step per
input character, with the unread remainder available for the
`code:` / `message:` lookahead. -/
def scan (st : ScanState) : List Char → ScanState
  | [] => st
  | c :: rest =>
    if c = ':' ∧ st.inValue = false then
      scan { st with currentKey := trimSpace st.currentValue
                     currentValue := []
                     inValue := true } rest
    else if c = ' ' ∧ st.inValue = false then
      if st.currentKey ≠ [] ∧ st.currentValue ≠ [] then
        scan { st with result := (st.currentKey, st.currentValue) :: st.result
                       currentValue := []
                       inValue := false } rest
      else
        scan { st with inValue := false } rest
    else if st.inValue = true ∧ c = ' ' ∧
        (goContains rest (strL "code:") ∨ goContains rest (strL "message:")) then
      scan { st with result := (st.currentKey, st.currentValue) :: st.result
                     currentValue := []
                     inValue := false } rest
    else
      scan { st with currentValue := st.currentValue ++ [c] } rest

/-- The scanner run on the input with the `map[` / `]` wrapper trimmed:
the state reached at the end of the loop in `stringToMap`. -/
def scanTrimmed (s : List Char) : ScanState :=
  scan ⟨[], [], false, []⟩ (goTrimPrefix (goTrimSuffix s (strL "]")) (strL "map["))

/-- `stringToMap` (part_020 lines 89-135): trim the `map[` / `]` wrapper,
run the scanner, and flush the trailing key/value pair. -/
def stringToMap (s : List Char) : List (List Char × List Char) :=
  if (scanTrimmed s).currentKey ≠ [] ∧ (scanTrimmed s).currentValue ≠ [] then
    ((scanTrimmed s).currentKey, (scanTrimmed s).currentValue) :: (scanTrimmed s).result
  else
    (scanTrimmed s).result

/-- `handle` (part_020 lines 84-149), acting on the error message text `e`
of the non-nil error it receives (the `r == nil` early return has already
happened at its call sites).  Returns the message text of the error that is
handed back to the caller: the lower-cased `message` value — suffixed with
the optional warning as `errs.Of("%s (%s)", ...)` renders it — when the
parse finds one, and the original error otherwise. -/
def handleErr (e : List Char) (warning : Option (List Char)) : List Char :=
  if goHasPrefix e (strL "map") = false then e
  else
    match (stringToMap e).lookup (strL "message") with
    | some message =>
      match warning with
      | some w => goToLower message ++ strL " (" ++ w ++ strL ")"
      | none => goToLower message
    | none => e

/-! ## Authentication (src/rpc/auth.go) -/

def AuthenticationTypeKey : List Char := strL "api-key"
def AuthenticationTypeCredentials : List Char := strL "user:password"

structure Authentication where
  type : List Char
  label : List Char
  deriving Repr, DecidableEq

/-- `Authentication.Validate` (src/rpc/auth.go lines 24-49): `none` is
success, `some msg` the validation error.  The source messages quote
username:password in single quotation marks; those marks are omitted here.
The `len(parts) != 2` branch of the source cannot fire (`SplitN` with limit
2 on a string containing the separator always yields two parts) and the
success of the preceding `strings.Contains` check is what reaches
`splitFirst` here. -/
def Validate (a : Authentication) : Option (List Char) :=
  if a.type ≠ AuthenticationTypeCredentials ∧ a.type ≠ AuthenticationTypeKey then
    some (strL "invalid authentication type")
  else if a.label = [] then
    some (strL "authentication label cannot be empty")
  else if a.type = AuthenticationTypeCredentials then
    if ¬ goContainsChar a.label ':' then
      some (strL "credentials must be in format username:password")
    else if (splitFirst a.label ':').1 = [] ∨ (splitFirst a.label ':').2 = [] then
      some (strL "username and password cannot be empty")
    else none
  else none

/-- `Authentication.GetCredentials` (src/rpc/auth.go lines 51-59). -/
def GetCredentials (a : Authentication) : List Char × List Char :=
  match Validate a with
  | some _ => ([], [])
  | none => splitFirst a.label ':'

/-- Standard base64 alphabet, as `encoding/base64.StdEncoding` used by
`http.Request.SetBasicAuth`. -/
def b64Char (n : Nat) : Char :=
  (strL "ABCDEFGHIJKLMNOPQRSTUVWXYZabcdefghijklmnopqrstuvwxyz0123456789+/").getD n 'A'

def base64Encode : List Nat → List Char
  | [] => []
  | [b1] =>
    [b64Char (b1 / 4), b64Char (b1 % 4 * 16), '=', '=']
  | [b1, b2] =>
    [b64Char (b1 / 4), b64Char (b1 % 4 * 16 + b2 / 16), b64Char (b2 % 16 * 4), '=']
  | b1 :: b2 :: b3 :: rest =>
    b64Char (b1 / 4) :: b64Char (b1 % 4 * 16 + b2 / 16) ::
      b64Char (b2 % 16 * 4 + b3 / 64) :: b64Char (b3 % 64) :: base64Encode rest

/-- Byte sequence of an ASCII string. -/
def strBytes (s : List Char) : List Nat := s.map Char.toNat

/-- An outgoing `http.Request`, at the granularity the claims need: its
header map plus the parts `Setup` must not touch. -/
structure HttpRequest where
  url : List Char
  body : List Char
  headers : List (List Char × List Char)
  deriving Repr, DecidableEq

/-- `http.Header.Set`: replace any previous value of the key. -/
def setHeader (req : HttpRequest) (k v : List Char) : HttpRequest :=
  { req with headers := (k, v) :: req.headers.filter (fun kv => kv.1 ≠ k) }

def AuthorizationHeaderLabel : List Char := strL "Authorization"

/-- `rpc.Bearer` (src/rpc/types.go lines 29-31). -/
def Bearer (token : List Char) : List Char := strL "Bearer " ++ token

/-- `http.Request.SetBasicAuth u p`: sets
`Authorization: Basic base64(u + ":" + p)`. -/
def setBasicAuth (req : HttpRequest) (u p : List Char) : HttpRequest :=
  setHeader req AuthorizationHeaderLabel
    (strL "Basic " ++ base64Encode (strBytes (u ++ ':' :: p)))

/-- `Authentication.Setup` (src/rpc/auth.go lines 61-77).  Mutation of the
request is rendered as returning the updated request; a validation error
leaves the request untouched. -/
def Setup (a : Authentication) (req : HttpRequest) : Except (List Char) HttpRequest :=
  match Validate a with
  | some e => Except.error e
  | none =>
    if a.type = AuthenticationTypeKey then
      Except.ok (setHeader req AuthorizationHeaderLabel (Bearer a.label))
    else if a.type = AuthenticationTypeCredentials then
      Except.ok (setBasicAuth req (GetCredentials a).1 (GetCredentials a).2)
    else
      Except.error (strL "unsupported authentication type")

/-! ## JSON values and the envelope codec (src/rpc/types.go)

Decoded JSON data as Go `encoding/json` produces into `any`, at the tree
level (the byte-level grammar is the standard library, not this
repository).  Numbers are modelled as integers: the daemon error codes and
heights these claims range over are integral, and Go renders an integral
`float64` without a decimal point. -/

inductive Jval where
  | null
  | bool (b : Bool)
  | num (n : Int)
  | str (s : List Char)
  | arr (l : List Jval)
  | obj (fields : List (List Char × Jval))

/-- Lexicographic order on keys, for Go `fmt` map rendering (which prints
map keys in sorted order). -/
def keyLe : List Char → List Char → Bool
  | [], _ => true
  | _ :: _, [] => false
  | c :: t, d :: u => if c < d then true else if d < c then false else keyLe t u

def insertByKey (p : List Char × List Char) :
    List (List Char × List Char) → List (List Char × List Char)
  | [] => [p]
  | q :: rest => if keyLe p.1 q.1 then p :: q :: rest else q :: insertByKey p rest

/-- Insertion sort of rendered key/value pairs by key; the key order does
not depend on the rendered values, so sorting after rendering agrees with
Go sorting the map keys before rendering. -/
def sortByKey : List (List Char × List Char) → List (List Char × List Char)
  | [] => []
  | p :: rest => insertByKey p (sortByKey rest)

def joinSpace (l : List (List Char)) : List Char :=
  (strL " ").intercalate l

mutual

/-- Go `fmt` verb `%v` on a decoded JSON value: `nil` prints `<nil>`,
slices print `[a b c]`, maps print `map[k1:v1 k2:v2]` with keys in sorted
order. -/
def formatJval : Jval → List Char
  | Jval.null => strL "<nil>"
  | Jval.bool true => strL "true"
  | Jval.bool false => strL "false"
  | Jval.num n => intDec n
  | Jval.str s => s
  | Jval.arr l => '[' :: joinSpace (formatJvalList l) ++ [']']
  | Jval.obj fs =>
    strL "map[" ++
      joinSpace ((sortByKey (formatJvalPairs fs)).map (fun kv => kv.1 ++ ':' :: kv.2)) ++
      [']']

def formatJvalList : List Jval → List (List Char)
  | [] => []
  | j :: t => formatJval j :: formatJvalList t

def formatJvalPairs : List (List Char × Jval) → List (List Char × List Char)
  | [] => []
  | kv :: t => (kv.1, formatJval kv.2) :: formatJvalPairs t

end

/-- `rpc.Request` (src/rpc/types.go lines 56-62). -/
structure Request where
  id : List Char
  version : List Char
  method : List Char
  params : List Jval

/-- `json.Marshal` of a `Request`: the wire object with the struct tags
`id`, `jsonrpc`, `method`, `params`, in struct order. -/
def serializeRequest (r : Request) : Jval :=
  Jval.obj [(strL "id", Jval.str r.id),
            (strL "jsonrpc", Jval.str r.version),
            (strL "method", Jval.str r.method),
            (strL "params", Jval.arr r.params)]

/-- `json.Unmarshal` into a string-typed struct field: a missing field or a
JSON `null` leaves the zero value, a JSON string is taken, any other shape
is a type error.  (Field names are matched exactly, as the tagged names
produced by `json.Marshal` are.) -/
def decodeStrField : Option Jval → Option (List Char)
  | none => some []
  | some Jval.null => some []
  | some (Jval.str s) => some s
  | some _ => none

/-- `json.Unmarshal` into the `Params []any` field. -/
def decodeParamsField : Option Jval → Option (List Jval)
  | none => some []
  | some Jval.null => some []
  | some (Jval.arr l) => some l
  | some _ => none

/-- `json.Unmarshal` of wire data into a `Request`. -/
def unmarshalRequest : Jval → Option Request
  | Jval.obj fs =>
    match decodeStrField (fs.lookup (strL "id")),
        decodeStrField (fs.lookup (strL "jsonrpc")),
        decodeStrField (fs.lookup (strL "method")),
        decodeParamsField (fs.lookup (strL "params")) with
    | some i, some v, some m, some p => some ⟨i, v, m, p⟩
    | _, _, _, _ => none
  | _ => none

/-- `rpc.Response` (src/rpc/types.go lines 65-69): the decoded envelope.
`Error any` decodes a JSON `null` (or an absent field) to Go `nil`,
modelled as `none`; `Result json.RawMessage` keeps the result payload
unconsumed, modelled as the undecoded tree. -/
structure Response where
  id : List Char
  error : Option Jval
  result : Jval

/-- `json.Unmarshal` of a reply body into a `Response`. -/
def unmarshalResponse : Jval → Option Response
  | Jval.obj fs =>
    match decodeStrField (fs.lookup (strL "id")) with
    | none => none
    | some i =>
      let e := match fs.lookup (strL "error") with
        | none => none
        | some Jval.null => none
        | some v => some v
      some ⟨i, e, (fs.lookup (strL "result")).getD Jval.null⟩
  | _ => none

/-- The envelope-handling tail of `RPCClient.Do` (src/rpc/types.go lines
166-181): decode the payload into a `Response` — failure is the
deserialization error (whose appended `encoding/json` message text is not
modelled) — then, if the envelope carries a non-nil error value, return
`errs.Of("%v", response.Error)`, i.e. the error whose text is the `fmt`
rendering of that value; otherwise return the envelope. -/
def doFinish (payload : Jval) : Except (List Char) Response :=
  match unmarshalResponse payload with
  | none => Except.error (strL "failed to deserialize response")
  | some resp =>
    match resp.error with
    | some e => Except.error (formatJval e)
    | none => Except.ok resp

/-! # Theorems -/

/-- C7: for every integer `v`, `VerbosityFrom v` succeeds if and only if
`0 ≤ v ≤ 3`, yielding the named level attached to `v` (`VerbosityFrom 2`
is the detailed-info level); outside that range it fails with the error
message carrying the offending value and the valid range `0-3`. -/
theorem verbosityFrom_range (v : Int) :
    ((∃ l, VerbosityFrom v = Except.ok l) ↔ (0 ≤ v ∧ v ≤ 3)) ∧
    (∀ l, VerbosityFrom v = Except.ok l → l = v) ∧
    (v < 0 ∨ 3 < v → VerbosityFrom v = Except.error (verbosityErrMsg v)) ∧
    VerbosityFrom 2 = Except.ok VerbosityDetailedBlockInfo := by
  unfold VerbosityFrom VerbositySerializedHexData VerbosityFullBlockInfoWithPrevout
  refine ⟨⟨?_, ?_⟩, ?_, ?_, by rw [if_neg (by omega)]; rfl⟩
  · rintro ⟨l, hl⟩
    split at hl
    · exact absurd hl (by simp)
    · omega
  · intro h
    rw [if_neg (by omega)]
    exact ⟨v, rfl⟩
  · intro l hl
    split at hl
    · exact absurd hl (by simp)
    · injection hl with h
      exact h.symm
  · intro h
    rw [if_pos (by omega)]

/-- Closed instances of C7: `VerbosityFrom 2` succeeds with the
detailed-info level, `VerbosityFrom (-1)` and `VerbosityFrom 4` fail with
messages carrying the value and the range. -/
theorem verbosityFrom_range_witness :
    VerbosityFrom 2 = Except.ok VerbosityDetailedBlockInfo ∧
    VerbosityFrom (-1) = Except.error (verbosityErrMsg (-1)) ∧
    VerbosityFrom 4 = Except.error (verbosityErrMsg 4) :=
  ⟨(verbosityFrom_range 2).2.2.2,
   (verbosityFrom_range (-1)).2.2.1 (by decide),
   (verbosityFrom_range 4).2.2.1 (by decide)⟩

/-- One character of the class `[0-9a-f]`. -/
def isLowerHexDigit (c : Char) : Bool :=
  ('0' ≤ c ∧ c ≤ '9') ∨ ('a' ≤ c ∧ c ≤ 'f')

/-- C8: `IsBlockHashInvalid s` is `true` whenever `s` does not have length
64 or contains a character outside `[0-9a-fA-F]`, and `false` for every
string of exactly 64 lowercase hexadecimal characters. -/
theorem isBlockHashInvalid_spec (s : List Char) :
    (s.length ≠ 64 ∨ (∃ c ∈ s, isHexDigit c = false) → IsBlockHashInvalid s = true) ∧
    (s.length = 64 ∧ (∀ c ∈ s, isLowerHexDigit c = true) → IsBlockHashInvalid s = false) := by
  constructor
  · rintro (h | ⟨c, hc, hcf⟩)
    · simp [IsBlockHashInvalid, h]
    · have hall : s.all isHexDigit = false := by
        rw [List.all_eq_false]
        exact ⟨c, hc, by simp [hcf]⟩
      simp [IsBlockHashInvalid, hashRegexMatches, hall]
  · rintro ⟨hlen, hhex⟩
    have hall : s.all isHexDigit = true := by
      rw [List.all_eq_true]
      intro c hc
      have := hhex c hc
      unfold isLowerHexDigit at this
      unfold isHexDigit
      simp only [decide_eq_true_eq] at this ⊢
      tauto
    simp [IsBlockHashInvalid, hashRegexMatches, hlen, hall]

/-- Closed instance of C8: the 64-character lowercase hash from the source
documentation is not invalid. -/
theorem isBlockHashInvalid_spec_witness :
    IsBlockHashInvalid
      (strL "00000000c937983704a73af28acdec37b049d214adbda81d7e2a3dd146f6ed09") = false :=
  (isBlockHashInvalid_spec _).2 ⟨by decide, by decide⟩

/-- C10: `errs.Of` with no format arguments returns the constant text
`malformed error` when the message contains a percent sign, and the
message itself otherwise. -/
theorem errsOf_noargs_spec (m : List Char) :
    (goContainsChar m '%' = true → errsOfNoArgs m = strL "malformed error") ∧
    (goContainsChar m '%' = false → errsOfNoArgs m = m) := by
  unfold errsOfNoArgs
  constructor <;> intro h <;> simp [h]

/-- Closed instances of C10: a message with a stray `%` collapses to
`malformed error`; a plain message is kept verbatim. -/
theorem errsOf_noargs_spec_witness :
    errsOfNoArgs (strL "rate is 5% off") = strL "malformed error" ∧
    errsOfNoArgs (strL "block not found") = strL "block not found" :=
  ⟨(errsOf_noargs_spec _).1 (by decide), (errsOf_noargs_spec _).2 (by decide)⟩

/-! ## Validate and Setup -/

lemma contains_true_iff (l : List Char) (c : Char) : l.contains c = true ↔ c ∈ l :=
  List.elem_iff

lemma contains_false_iff (l : List Char) (c : Char) : l.contains c = false ↔ c ∉ l := by
  constructor
  · intro h hm
    rw [← contains_true_iff] at hm
    rw [h] at hm
    exact Bool.false_ne_true hm
  · intro h
    rcases Bool.eq_false_or_eq_true (l.contains c) with hb | hb
    · exact absurd ((contains_true_iff l c).1 hb) h
    · exact hb

lemma splitFirst_of_decomp (u p : List Char) (hu : u.contains ':' = false) :
    splitFirst (u ++ ':' :: p) ':' = (u, p) := by
  induction u with
  | nil => simp [splitFirst]
  | cons c t ih =>
    rw [contains_false_iff] at hu
    simp only [List.mem_cons, not_or] at hu
    have ht : t.contains ':' = false := (contains_false_iff t ':').2 hu.2
    have hc : ¬(c = ':') := fun h => hu.1 h.symm
    simp [splitFirst, hc, ih ht]

lemma contains_colon_decomp (l : List Char) (h : l.contains ':' = true) :
    ∃ u p, l = u ++ ':' :: p ∧ u.contains ':' = false := by
  induction l with
  | nil => rw [contains_true_iff] at h; simp at h
  | cons c t ih =>
    by_cases hc : c = ':'
    · exact ⟨[], t, by rw [hc]; rfl, by rw [contains_false_iff]; simp⟩
    · have ht : t.contains ':' = true := by
        rw [contains_true_iff] at h ⊢
        rcases List.mem_cons.1 h with h | h
        · exact absurd h.symm hc
        · exact h
      obtain ⟨u, p, hl, hu⟩ := ih ht
      refine ⟨c :: u, p, by rw [hl]; rfl, ?_⟩
      rw [contains_false_iff] at hu ⊢
      simp only [List.mem_cons, not_or]
      exact ⟨fun he => hc he.symm, hu⟩

lemma decomp_contains_colon (u p : List Char) :
    (u ++ ':' :: p).contains ':' = true := by
  rw [contains_true_iff]
  simp

/-- The exact success condition of `Validate`, shared by the Validate and
Setup theorems. -/
lemma validate_none_iff (a : Authentication) :
    Validate a = none ↔
      ((a.type = AuthenticationTypeKey ∨ a.type = AuthenticationTypeCredentials) ∧
       a.label ≠ [] ∧
       (a.type = AuthenticationTypeCredentials →
         ∃ u p, a.label = u ++ ':' :: p ∧ u.contains ':' = false ∧ u ≠ [] ∧ p ≠ [])) := by
  unfold Validate goContainsChar
  split_ifs with h1 h2 h3 h4 h5
  · simp only [reduceCtorEq, false_iff]
    rintro ⟨hk | hc, -, -⟩
    · exact h1.2 hk
    · exact h1.1 hc
  · simp only [reduceCtorEq, false_iff]
    rintro ⟨-, hl, -⟩
    exact hl h2
  · simp only [reduceCtorEq, false_iff]
    rintro ⟨-, -, hcred⟩
    obtain ⟨u, p, hl, hu, hune, hpne⟩ := hcred h3
    rw [hl, splitFirst_of_decomp u p hu] at h5
    rcases h5 with h | h
    · exact hune h
    · exact hpne h
  · simp only [true_iff]
    push_neg at h5
    obtain ⟨u, p, hl, hu⟩ := contains_colon_decomp a.label h4
    rw [hl, splitFirst_of_decomp u p hu] at h5
    exact ⟨Or.inr h3, h2, fun _ => ⟨u, p, hl, hu, h5.1, h5.2⟩⟩
  · simp only [reduceCtorEq, false_iff]
    rintro ⟨-, -, hcred⟩
    obtain ⟨u, p, hl, -⟩ := hcred h3
    exact h4 (by rw [hl]; exact decomp_contains_colon u p)
  · simp only [true_iff]
    push_neg at h1
    refine ⟨?_, h2, fun hc => absurd hc h3⟩
    by_cases hc : a.type = AuthenticationTypeCredentials
    · exact Or.inr hc
    · exact Or.inl (h1 hc)

/-- C3 counterexample: the label `a:b:c` contains two colons, not exactly
one, yet `Validate` succeeds on it — `SplitN(label, ":", 2)` only splits at
the first colon. -/
theorem validate_twoColons_counterexample :
    Validate ⟨AuthenticationTypeCredentials, strL "a:b:c"⟩ = none ∧
    (strL "a:b:c").count ':' ≠ 1 := by decide

/-- C3 (amended): `Validate` succeeds exactly when the type is one of the
two recognized values, the label is non-empty, and, for type
`user:password`, the label contains at least one `:` and splitting at the
first `:` yields two non-empty parts (the second part may itself contain
further colons).  In particular a `user:password` label with no colon
fails. -/
theorem validate_spec (a : Authentication) :
    (Validate a = none ↔
      ((a.type = AuthenticationTypeKey ∨ a.type = AuthenticationTypeCredentials) ∧
       a.label ≠ [] ∧
       (a.type = AuthenticationTypeCredentials →
         ∃ u p, a.label = u ++ ':' :: p ∧ u.contains ':' = false ∧ u ≠ [] ∧ p ≠ []))) ∧
    (a.type = AuthenticationTypeCredentials → a.label.contains ':' = false →
      Validate a ≠ none) := by
  refine ⟨validate_none_iff a, fun hc hnc hv => ?_⟩
  obtain ⟨-, -, hcred⟩ := (validate_none_iff a).1 hv
  obtain ⟨u, p, hl, -⟩ := hcred hc
  rw [hl, decomp_contains_colon u p] at hnc
  exact Bool.true_eq_false.mp hnc

/-- Closed instance of C3 (amended): `alice:secret` validates, `no-colon`
fails for type `user:password`. -/
theorem validate_spec_witness :
    Validate ⟨AuthenticationTypeCredentials, strL "alice:secret"⟩ = none ∧
    Validate ⟨AuthenticationTypeCredentials, strL "no-colon"⟩ ≠ none :=
  ⟨(validate_spec _).1.2 ⟨Or.inr rfl, by decide,
     fun _ => ⟨strL "alice", strL "secret", by decide, by decide, by decide, by decide⟩⟩,
   (validate_spec _).2 rfl (by decide)⟩

/-- C6: on a valid `Authentication`, `Setup` only rewrites the request's
headers — `api-key` sets `Authorization: Bearer <label>`, `user:password`
sets HTTP Basic auth with the username and password split from the label —
and on an invalid one it propagates the validation error, leaving the
request untouched. -/
theorem setup_spec (a : Authentication) (req : HttpRequest) :
    (∀ e, Validate a = some e → Setup a req = Except.error e) ∧
    (Validate a = none → a.type = AuthenticationTypeKey →
      Setup a req = Except.ok (setHeader req AuthorizationHeaderLabel (Bearer a.label)) ∧
      (setHeader req AuthorizationHeaderLabel (Bearer a.label)).url = req.url ∧
      (setHeader req AuthorizationHeaderLabel (Bearer a.label)).body = req.body) ∧
    (Validate a = none → a.type = AuthenticationTypeCredentials →
      ∃ u p, a.label = u ++ ':' :: p ∧ u.contains ':' = false ∧
        Setup a req = Except.ok (setBasicAuth req u p) ∧
        (setBasicAuth req u p).url = req.url ∧
        (setBasicAuth req u p).body = req.body) := by
  refine ⟨?_, ?_, ?_⟩
  · intro e he
    unfold Setup
    rw [he]
  · intro hv hk
    refine ⟨?_, rfl, rfl⟩
    unfold Setup
    rw [hv, if_pos hk]
  · intro hv hc
    obtain ⟨-, -, hcred⟩ := (validate_none_iff a).1 hv
    obtain ⟨u, p, hl, hu, -, -⟩ := hcred hc
    have hkey : a.type ≠ AuthenticationTypeKey := by
      rw [hc]
      decide
    refine ⟨u, p, hl, hu, ?_, rfl, rfl⟩
    unfold Setup
    rw [hv, if_neg hkey, if_pos hc]
    unfold GetCredentials
    rw [hv, hl, splitFirst_of_decomp u p hu]

/-- Closed instances of C6: `api-key`/`abc123` produces the header
`Authorization: Bearer abc123`; `user:password`/`alice:secret` fails
nothing and Basic-auths as `alice` / `secret`; both leave url and body
unchanged. -/
theorem setup_spec_witness :
    Setup ⟨AuthenticationTypeKey, strL "abc123"⟩ ⟨strL "http://node", strL "b", []⟩ =
      Except.ok (setHeader ⟨strL "http://node", strL "b", []⟩
        AuthorizationHeaderLabel (Bearer (strL "abc123"))) ∧
    Setup ⟨AuthenticationTypeCredentials, strL "alice:secret"⟩ ⟨strL "http://node", strL "b", []⟩ =
      Except.ok (setBasicAuth ⟨strL "http://node", strL "b", []⟩
        (strL "alice") (strL "secret")) := by
  constructor
  · exact ((setup_spec _ _).2.1 (by decide) (by decide)).1
  · obtain ⟨u, p, hl, hu, hs, -, -⟩ := (setup_spec
      ⟨AuthenticationTypeCredentials, strL "alice:secret"⟩
      ⟨strL "http://node", strL "b", []⟩).2.2 (by decide) (by decide)
    have h2 : (u, p) = (strL "alice", strL "secret") := by
      rw [← splitFirst_of_decomp u p hu, ← hl]
      decide
    obtain ⟨e1, e2⟩ := Prod.mk.injEq .. ▸ h2
    rw [hs, e1, e2]

/-! ## Envelope codec and transport -/

/-- C9: serializing any `Request` to the wire object
`{id, jsonrpc, method, params}` and deserializing it back yields a request
with the same method and the same params in the same order. -/
theorem request_roundtrip (r : Request) :
    ∃ r2, unmarshalRequest (serializeRequest r) = some r2 ∧
      r2.method = r.method ∧ r2.params = r.params :=
  ⟨⟨r.id, r.version, r.method, r.params⟩, rfl, rfl, rfl⟩

/-- C5: once `Do` has decoded a reply body into a `Response` envelope, a
non-empty `error` field is handed back to the caller as the error —
exactly the rendering of that value, with no normalization or decoration —
and no response value; an envelope with an empty (`null`/absent) `error`
field is returned as is. -/
theorem do_error_passthrough (payload : Jval) (resp : Response)
    (hdec : unmarshalResponse payload = some resp) :
    (∀ e, resp.error = some e → doFinish payload = Except.error (formatJval e)) ∧
    (resp.error = none → doFinish payload = Except.ok resp) := by
  have hstep : doFinish payload =
      match resp.error with
      | some e => Except.error (formatJval e)
      | none => Except.ok resp := by
    unfold doFinish
    rw [hdec]
  constructor
  · intro e he
    rw [hstep, he]
  · intro he
    rw [hstep, he]

/-- Closed instances of C5: a payload whose `error` field is the daemon
error object comes back as exactly its rendering; an error-free payload
comes back as the envelope. -/
theorem do_error_passthrough_witness :
    doFinish (Jval.obj [(strL "id", Jval.str (strL "bitclient")),
        (strL "error", Jval.obj [(strL "code", Jval.num (-5)),
          (strL "message", Jval.str (strL "Block not found"))]),
        (strL "result", Jval.null)]) =
      Except.error (formatJval (Jval.obj [(strL "code", Jval.num (-5)),
        (strL "message", Jval.str (strL "Block not found"))])) ∧
    doFinish (Jval.obj [(strL "id", Jval.str (strL "bitclient")),
        (strL "error", Jval.null),
        (strL "result", Jval.num 7)]) =
      Except.ok ⟨strL "bitclient", none, Jval.num 7⟩ :=
  ⟨(do_error_passthrough
      (Jval.obj [(strL "id", Jval.str (strL "bitclient")),
        (strL "error", Jval.obj [(strL "code", Jval.num (-5)),
          (strL "message", Jval.str (strL "Block not found"))]),
        (strL "result", Jval.null)])
      ⟨strL "bitclient",
        some (Jval.obj [(strL "code", Jval.num (-5)),
          (strL "message", Jval.str (strL "Block not found"))]), Jval.null⟩ rfl).1 _ rfl,
   (do_error_passthrough
      (Jval.obj [(strL "id", Jval.str (strL "bitclient")),
        (strL "error", Jval.null),
        (strL "result", Jval.num 7)])
      ⟨strL "bitclient", none, Jval.num 7⟩ rfl).2 rfl⟩

/-! ## Block identifier resolution -/

/-- C2 counterexample: `xyz` is neither a 64-hex hash nor a parseable
integer, yet the operations do not fail with an invalid-identifier error:
the discarded `strconv.Atoi` error leaves height `0`, one height-to-hash
lookup is issued at `0`, and its result is used. -/
theorem resolveBlock_counterexample :
    atoiOk (strL "xyz") = none ∧
    IsBlockHashInvalid (strL "xyz") = true ∧
    resolveBlockIdentifier
      (fun h => if h = 0 then
        some (strL "000000000019d6689c085ae165831e934ff763ae46a2a6c172b3f1b60a8ce26f")
        else none)
      (strL "xyz") =
    (Except.ok (strL "000000000019d6689c085ae165831e934ff763ae46a2a6c172b3f1b60a8ce26f"),
     [(0 : Int)]) := by
  refine ⟨by decide, by decide, ?_⟩
  rfl

/-- C2 (amended): a 64-hex identifier is used as the hash with no lookup;
every other identifier triggers exactly one height-to-hash lookup at the
value `strconv.Atoi` leaves after its error is discarded — the parsed
integer (negative values included, clamped at the 64-bit bounds) for
numeric strings, and `0` for non-numeric strings.  The lookup's result
replaces the identifier on success; on lookup failure the operation fails
with the message `block must be a valid block hash or a numeric height`. -/
theorem resolveBlock_spec (lookup : Int → Option (List Char)) (block : List Char) :
    (block.length = 64 ∧ block.all isHexDigit = true →
      resolveBlockIdentifier lookup block = (Except.ok block, [])) ∧
    (IsBlockHashInvalid block = true →
      (resolveBlockIdentifier lookup block).2 = [goAtoi block] ∧
      (∀ h, lookup (goAtoi block) = some h →
        (resolveBlockIdentifier lookup block).1 = Except.ok h) ∧
      (lookup (goAtoi block) = none →
        (resolveBlockIdentifier lookup block).1 = Except.error resolutionFailureMsg)) ∧
    (∀ n, atoiOk block = some n → goAtoi block = n) := by
  refine ⟨?_, ?_, ?_⟩
  · rintro ⟨hlen, hhex⟩
    have hvalid : IsBlockHashInvalid block = false := by
      simp [IsBlockHashInvalid, hashRegexMatches, hlen, hhex]
    unfold resolveBlockIdentifier
    rw [hvalid]
    rfl
  · intro hinv
    unfold resolveBlockIdentifier
    rw [hinv]
    refine ⟨?_, ?_, ?_⟩
    · cases h : lookup (goAtoi block) <;> simp [h]
    · intro hsh hh
      rw [hh]
      rfl
    · intro hn
      rw [hn]
      rfl
  · intro n hn
    unfold atoiOk at hn
    unfold goAtoi
    split_ifs at hn ⊢ with h hr
    all_goals simp only [Option.some.injEq, reduceCtorEq] at hn
    push_neg at hr
    rw [← hn]
    unfold clampInt64
    rw [if_neg (by omega), if_neg (by omega)]

/-- Closed instance of C2 (amended): input `1000` triggers one lookup at
height 1000 and returns its result; a 64-hex input is returned as-is with
no lookup. -/
theorem resolveBlock_spec_witness :
    goAtoi (strL "1000") = 1000 ∧
    (resolveBlockIdentifier
      (fun h => if h = 1000 then
        some (strL "00000000c937983704a73af28acdec37b049d214adbda81d7e2a3dd146f6ed09")
        else none) (strL "1000")).2 = [goAtoi (strL "1000")] ∧
    (resolveBlockIdentifier
      (fun h => if h = 1000 then
        some (strL "00000000c937983704a73af28acdec37b049d214adbda81d7e2a3dd146f6ed09")
        else none) (strL "1000")).1 =
      Except.ok (strL "00000000c937983704a73af28acdec37b049d214adbda81d7e2a3dd146f6ed09") ∧
    resolveBlockIdentifier
      (fun h => if h = 1000 then
        some (strL "00000000c937983704a73af28acdec37b049d214adbda81d7e2a3dd146f6ed09")
        else none)
      (strL "00000000c937983704a73af28acdec37b049d214adbda81d7e2a3dd146f6ed09") =
      (Except.ok (strL "00000000c937983704a73af28acdec37b049d214adbda81d7e2a3dd146f6ed09"), []) := by
  refine ⟨by decide, ?_, ?_, ?_⟩
  · exact ((resolveBlock_spec _ _).2.1 (by decide)).1
  · exact ((resolveBlock_spec _ _).2.1 (by decide)).2.1 _ (by decide)
  · exact (resolveBlock_spec _ _).1 ⟨by decide, by decide⟩

/-! ## The error normalizer -/

/-- C4 counterexample: `map:x message:HI]` does not begin with `map[`, yet
the normalizer does not return it unchanged — the code only tests for the
prefix `map`, parses the remainder, finds a `message` key and returns the
lower-cased `hi`. -/
theorem handle_nonMapBracket_counterexample :
    goHasPrefix (strL "map:x message:HI]") (strL "map[") = false ∧
    handleErr (strL "map:x message:HI]") none = strL "hi" ∧
    strL "hi" ≠ strL "map:x message:HI]" := by decide

/-- C4 (amended): every error whose text does not begin with `map` — the
marker the code actually tests, rather than `map[` — is returned
unchanged; in particular `connection refused` is returned unchanged. -/
theorem handle_nonMap_passthrough :
    (∀ e w, goHasPrefix e (strL "map") = false → handleErr e w = e) ∧
    handleErr (strL "connection refused") none = strL "connection refused" := by
  constructor
  · intro e w h
    unfold handleErr
    rw [if_pos h]
  · decide

/-- Closed instance of C4 (amended): an error text without the `map`
marker passes through. -/
theorem handle_nonMap_witness :
    handleErr (strL "dial tcp refused") none = strL "dial tcp refused" :=
  handle_nonMap_passthrough.1 _ none (by decide)

/-! Stepping lemmas for the scanner, one per branch of the loop body. -/

lemma scan_cons_colon (st : ScanState) (rest : List Char) (h : st.inValue = false) :
    scan st (':' :: rest) =
      scan { st with currentKey := trimSpace st.currentValue
                     currentValue := []
                     inValue := true } rest := by
  simp [scan, h]

lemma scan_cons_other (st : ScanState) (c : Char) (rest : List Char)
    (h1 : ¬(c = ':' ∧ st.inValue = false)) (h2 : c ≠ ' ') :
    scan st (c :: rest) = scan { st with currentValue := st.currentValue ++ [c] } rest := by
  rw [scan, if_neg h1, if_neg (fun hand => h2 hand.1),
    if_neg (fun hand => h2 hand.2.1)]

lemma scan_cons_space_store (st : ScanState) (rest : List Char) (h : st.inValue = true)
    (hc : goContains rest (strL "code:") = true ∨ goContains rest (strL "message:") = true) :
    scan st (' ' :: rest) =
      scan { st with result := (st.currentKey, st.currentValue) :: st.result
                     currentValue := []
                     inValue := false } rest := by
  rw [scan, if_neg (by simp [h]), if_neg (by simp [h]), if_pos ⟨h, rfl, hc⟩]

lemma scan_cons_space_nomarker (st : ScanState) (rest : List Char) (h : st.inValue = true)
    (hm1 : goContains rest (strL "code:") = false)
    (hm2 : goContains rest (strL "message:") = false) :
    scan st (' ' :: rest) = scan { st with currentValue := st.currentValue ++ [' '] } rest := by
  rw [scan, if_neg (by simp [h]), if_neg (by simp [h]),
    if_neg (fun hand => by rw [hm1, hm2] at hand; simp at hand)]

lemma isPrefixOf_append_self (p x : List Char) : p.isPrefixOf (p ++ x) = true := by
  simp [ List.isPrefixOf_iff_prefix]

lemma goContains_append_self (p x : List Char) : goContains (p ++ x) p = true := by
  cases p with
  | nil =>
    cases x with
    | nil => rfl
    | cons c t => simp [goContains, List.isPrefixOf]
  | cons c t =>
    rw [List.cons_append, goContains, ← List.cons_append, isPrefixOf_append_self]
    rfl

lemma goContains_tail (c : Char) (t pat : List Char) (h : goContains (c :: t) pat = false) :
    goContains t pat = false := by
  rw [goContains] at h
  exact (Bool.or_eq_false_iff.1 h).2

/-! Aggregate stepping lemmas: whole segments of the input consumed at
once. -/

/-- A run of characters that are neither `:` nor a space is appended to the
current value verbatim, in either scanner mode. -/
lemma scan_append_keychars (l : List Char) (hl : ∀ c ∈ l, c ≠ ':' ∧ c ≠ ' ') :
    ∀ st rest, scan st (l ++ rest) = scan { st with currentValue := st.currentValue ++ l } rest := by
  induction l with
  | nil =>
    intro st rest
    rw [List.nil_append, List.append_nil]
  | cons c t ih =>
    intro st rest
    have hc := hl c (List.mem_cons_self c t)
    rw [List.cons_append, scan_cons_other st c (t ++ rest) (fun hand => hc.1 hand.1) hc.2,
      ih (fun x hx => hl x (List.mem_cons_of_mem c hx)) _ rest]
    have he : (st.currentValue ++ [c]) ++ t = st.currentValue ++ c :: t := by
      simp
    show scan { st with currentValue := (st.currentValue ++ [c]) ++ t } rest = _
    rw [he]

/-- While inside a value, a run of non-space characters is appended to the
current value verbatim (colons included). -/
lemma scan_append_value_nospace (l : List Char) (hl : ∀ c ∈ l, c ≠ ' ') :
    ∀ st rest, st.inValue = true →
      scan st (l ++ rest) = scan { st with currentValue := st.currentValue ++ l } rest := by
  induction l with
  | nil =>
    intro st rest _
    rw [List.nil_append, List.append_nil]
  | cons c t ih =>
    intro st rest hv
    have hc := hl c (List.mem_cons_self c t)
    rw [List.cons_append,
      scan_cons_other st c (t ++ rest) (fun hand => by rw [hv] at hand; simp at hand) hc,
      ih (fun x hx => hl x (List.mem_cons_of_mem c hx)) _ rest (by rw [← hv])]
    have he : (st.currentValue ++ [c]) ++ t = st.currentValue ++ c :: t := by
      simp
    show scan { st with currentValue := (st.currentValue ++ [c]) ++ t } rest = _
    rw [he]

/-- While inside a value, a trailing segment free of the `code:` and
`message:` markers — spaces allowed — is appended to the current value
verbatim, and the scan ends there. -/
lemma scan_append_value_markerfree (l : List Char) :
    ∀ st, st.inValue = true →
      goContains l (strL "code:") = false → goContains l (strL "message:") = false →
      scan st l = { st with currentValue := st.currentValue ++ l } := by
  induction l with
  | nil =>
    intro st _ _ _
    rw [List.append_nil]
    rfl
  | cons c t ih =>
    intro st hv h1 h2
    have ht1 : goContains t (strL "code:") = false := goContains_tail c t _ h1
    have ht2 : goContains t (strL "message:") = false := goContains_tail c t _ h2
    by_cases hsp : c = ' '
    · subst hsp
      rw [scan_cons_space_nomarker st t hv ht1 ht2,
        ih _ (by rw [← hv]) ht1 ht2]
      have he : (st.currentValue ++ [' ']) ++ t = st.currentValue ++ ' ' :: t := by
        simp
      show ({ st with currentValue := (st.currentValue ++ [' ']) ++ t } : ScanState) = _
      rw [he]
    · rw [scan_cons_other st c t (fun hand => by rw [hv] at hand; simp at hand) hsp,
        ih _ (by rw [← hv]) ht1 ht2]
      have he : (st.currentValue ++ [c]) ++ t = st.currentValue ++ c :: t := by
        simp
      show ({ st with currentValue := (st.currentValue ++ [c]) ++ t } : ScanState) = _
      rw [he]

lemma goTrimSuffix_single (l : List Char) (c : Char) : goTrimSuffix (l ++ [c]) [c] = l := by
  unfold goTrimSuffix goHasSuffix
  rw [if_pos (by simp [List.isSuffixOf_iff_suffix])]
  rw [show (l ++ [c]).length - [c].length = l.length by simp]
  exact List.take_left l [c]

lemma goTrimPrefix_self (p l : List Char) : goTrimPrefix (p ++ l) p = l := by
  unfold goTrimPrefix goHasPrefix
  rw [if_pos (isPrefixOf_append_self p l)]
  exact List.drop_left p l

/-- The scanner state produced by an input of the shape
`map[code:C message:M]` with a space-free code value and a marker-free
message value: `code` is stored with value `C`, and the scan ends holding
key `message` with value `M` still unflushed. -/
lemma scanTrimmed_shape (C M : List Char) (hC : ∀ c ∈ C, c ≠ ' ')
    (hM1 : goContains M (strL "code:") = false)
    (hM2 : goContains M (strL "message:") = false) :
    scanTrimmed (strL "map[code:" ++ C ++ strL " message:" ++ M ++ strL "]")
      = ⟨strL "message", M, true, [(strL "code", C)]⟩ := by
  unfold scanTrimmed
  rw [show (strL "]") = [']'] from rfl]
  rw [show strL "map[code:" ++ C ++ strL " message:" ++ M ++ [']']
      = (strL "map[code:" ++ C ++ strL " message:" ++ M) ++ [']'] from rfl]
  rw [goTrimSuffix_single]
  have e1 : strL "map[code:" ++ C ++ strL " message:" ++ M
      = strL "map[" ++ (strL "code" ++ ':' :: (C ++ ' ' :: (strL "message" ++ ':' :: M))) := by
    rw [show strL "map[code:" = strL "map[" ++ (strL "code" ++ [':']) from rfl]
    rw [show strL " message:" = ' ' :: (strL "message" ++ [':']) from rfl]
    simp [List.append_assoc]
  rw [e1, goTrimPrefix_self]
  rw [scan_append_keychars (strL "code") (by decide) ⟨[], [], false, []⟩
    (':' :: (C ++ ' ' :: (strL "message" ++ ':' :: M)))]
  show scan ⟨[], strL "code", false, []⟩ (':' :: (C ++ ' ' :: (strL "message" ++ ':' :: M))) = _
  rw [scan_cons_colon _ _ rfl]
  show scan ⟨strL "code", [], true, []⟩ (C ++ ' ' :: (strL "message" ++ ':' :: M)) = _
  rw [scan_append_value_nospace C hC ⟨strL "code", [], true, []⟩
    (' ' :: (strL "message" ++ ':' :: M)) rfl]
  show scan ⟨strL "code", C, true, []⟩ (' ' :: (strL "message" ++ ':' :: M)) = _
  rw [scan_cons_space_store _ _ rfl (Or.inr
    (show goContains (strL "message" ++ ':' :: M) (strL "message:") = true from
      goContains_append_self (strL "message:") M))]
  show scan ⟨strL "code", [], false, [(strL "code", C)]⟩ (strL "message" ++ ':' :: M) = _
  rw [scan_append_keychars (strL "message") (by decide)
    ⟨strL "code", [], false, [(strL "code", C)]⟩ (':' :: M)]
  show scan ⟨strL "code", strL "message", false, [(strL "code", C)]⟩ (':' :: M) = _
  rw [scan_cons_colon _ _ rfl]
  show scan ⟨strL "message", [], true, [(strL "code", C)]⟩ M = _
  rw [scan_append_value_markerfree M ⟨strL "message", [], true, [(strL "code", C)]⟩ rfl hM1 hM2]
  rfl

/-- C1 counterexample: `map[code:a :v x message:hello]` has the form
`map[code:C message:M]` with `M = hello` free of the `code:`/`message:`
markers, yet the normalizer does not extract `hello` — the stray colon in
the code value derails the scanner into recording the key `xmessage`, no
`message` key is found, and the original error is returned. -/
theorem handle_code_value_counterexample :
    handleErr (strL "map[code:a :v x message:hello]") none
      = strL "map[code:a :v x message:hello]" ∧
    strL "map[code:a :v x message:hello]"
      = strL "map[code:" ++ strL "a :v x" ++ strL " message:" ++ strL "hello" ++ strL "]" ∧
    goContains (strL "hello") (strL "code:") = false ∧
    goContains (strL "hello") (strL "message:") = false ∧
    handleErr (strL "map[code:a :v x message:hello]") none ≠ goToLower (strL "hello") := by
  refine ⟨by decide, by decide, by decide, by decide, by decide⟩

/-- C1 (amended): for every error string of the form `map[code:C message:M]`
whose code value `C` contains no space and whose message value `M` is
non-empty and contains neither `code:` nor `message:`, the normalizer
extracts the message value, lower-cases it and returns it; and whenever the
parse of a `map`-prefixed error finds no `message` key, the original error
is returned unchanged. -/
theorem handle_extracts_message :
    (∀ C M : List Char, (∀ c ∈ C, c ≠ ' ') →
      goContains M (strL "code:") = false →
      goContains M (strL "message:") = false →
      M ≠ [] →
      handleErr (strL "map[code:" ++ C ++ strL " message:" ++ M ++ strL "]") none
        = goToLower M) ∧
    (∀ e w, goHasPrefix e (strL "map") = true →
      (stringToMap e).lookup (strL "message") = none →
      handleErr e w = e) := by
  constructor
  · intro C M hC hM1 hM2 hMne
    have hscan := scanTrimmed_shape C M hC hM1 hM2
    have hmap : stringToMap (strL "map[code:" ++ C ++ strL " message:" ++ M ++ strL "]")
        = (strL "message", M) :: [(strL "code", C)] := by
      unfold stringToMap
      rw [hscan]
      rw [if_pos ⟨show (strL "message" : List Char) ≠ [] by decide, hMne⟩]
    have hpre : goHasPrefix (strL "map[code:" ++ C ++ strL " message:" ++ M ++ strL "]")
        (strL "map") = true := rfl
    have hlook : (stringToMap
        (strL "map[code:" ++ C ++ strL " message:" ++ M ++ strL "]")).lookup
          (strL "message") = some M := by
      rw [hmap]
      rfl
    unfold handleErr
    rw [if_neg (by rw [hpre]; simp), hlook]
  · intro e w hpre hnone
    unfold handleErr
    rw [if_neg (by rw [hpre]; simp), hnone]

/-- Closed instance of C1 (amended): the daemon error from the spec is
normalized to `block not found`. -/
theorem handle_extracts_message_witness :
    handleErr (strL "map[code:-5 message:Block not found]") none = strL "block not found" := by
  rw [show strL "map[code:-5 message:Block not found]"
      = strL "map[code:" ++ strL "-5" ++ strL " message:" ++ strL "Block not found" ++ strL "]"
      by decide]
  rw [handle_extracts_message.1 (strL "-5") (strL "Block not found")
    (by decide) (by decide) (by decide) (by decide)]
  decide

end Bitclient
